import Mathlib

/-!
Verification of the statistics-server query engine of the pokemon-mcp-server
repository against its natural-language specification.

The Python tool modules under `servers/statistics-server/src/tools/` are
shallowly embedded here:

* `filter_pokemon_multi_criteria.py` — boolean-mask multi-criteria filter,
  then sort and truncate (`FilterArgs`, `matchesFilters`, `filterStage`,
  `filter_pokemon_multi_criteria`);
* `calculate_stat_percentile.py` — descending sort, 1-based rank,
  percentile formula (`calculate_stat_percentile`);
* `get_resistances_and_weaknesses.py` — classification of the 18
  `against_*` multipliers into six buckets (`categorize_matchups`);
* `find_pokemon_resistant_to_types.py` — reverse resistance search
  (`find_pokemon_resistant_to_types`);
* `calculate_bst_distribution.py` — histogram binning of `base_total`
  (`calculate_bst_distribution`);
* `find_similar_pokemon.py` — z-score standardization, Euclidean
  distances, similarity normalization (`statMean`, `statVar`, `zval`,
  `simDist`, `maxDist`, `similarity`, `find_similar_pokemon`).

Modelling conventions: pandas DataFrame rows become a `List Pokemon` kept in
table order, together with the list of column names (`Table`); machine floats
become `ℚ` where the code only compares, adds and divides, and `ℝ` where the
code takes square roots (the similarity engine); the CSV `abilities` cell,
which the code parses with `ast.literal_eval` into a list of strings, is
modelled directly as that parsed list; a Python function that can return an
error message instead of data becomes an `Option`-valued function, `none`
standing for the error path.  A pandas boolean-mask conjunction followed by
`df[mask]` keeps exactly the rows satisfying every conjunct, in table order,
which is `List.filter` of the conjunction of the per-row predicates.
`sort_values` is embedded as an insertion sort on the requested key; the
claims proved about sorted output depend only on sortedness and membership,
never on the placement of equal keys, except where explicitly discussed
(tie-break stability itself is left unsettled because the code uses the
pandas default, unstable, quicksort).
-/

namespace PokemonMCP

/-- One row of the statistics DataFrame (`data/statistics.csv` loaded by
`utils/load_data.py`).  Only the columns read by the embedded tools are
carried.  `is_legendary` is the raw 0/1 integer column (the loader casts it
to `int8`, not to `bool`), `abilities` is the parsed ability list and
`against` holds the row's `against_<type>` cells as a key-value list. -/
structure Pokemon where
  name : String
  pokedex_number : ℤ
  type1 : String
  type2 : Option String
  hp : ℤ
  attack : ℤ
  defense : ℤ
  sp_attack : ℤ
  sp_defense : ℤ
  speed : ℤ
  base_total : ℤ
  weight_kg : ℚ
  height_m : ℚ
  generation : ℤ
  is_legendary : ℤ
  capture_rate : ℤ
  base_happiness : ℤ
  abilities : List String
  against : List (String × ℚ)
  deriving DecidableEq, Inhabited

/-- The loaded DataFrame: its column names (checked by the tools with
`sort_by in df.columns` / `stat not in df.columns`) and its rows in table
order. -/
structure Table where
  cols : List String
  rows : List Pokemon
  deriving DecidableEq, Inhabited

/-- Argument bag of `filter_pokemon_multi_criteria` (every key optional,
exactly the keys of the tool's input schema). -/
structure FilterArgs where
  type1 : Option String := none
  type2 : Option String := none
  min_hp : Option ℤ := none
  max_hp : Option ℤ := none
  min_attack : Option ℤ := none
  max_attack : Option ℤ := none
  min_defense : Option ℤ := none
  max_defense : Option ℤ := none
  min_sp_attack : Option ℤ := none
  max_sp_attack : Option ℤ := none
  min_sp_defense : Option ℤ := none
  max_sp_defense : Option ℤ := none
  min_speed : Option ℤ := none
  max_speed : Option ℤ := none
  min_base_total : Option ℤ := none
  max_base_total : Option ℤ := none
  min_weight_kg : Option ℚ := none
  max_weight_kg : Option ℚ := none
  min_height_m : Option ℚ := none
  max_height_m : Option ℚ := none
  generation : Option ℤ := none
  is_legendary : Option Bool := none
  min_capture_rate : Option ℤ := none
  abilities : List String := []
  sort_by : Option String := none
  ascending : Option Bool := none
  limit : Option ℕ := none
  deriving DecidableEq, Inhabited

/-- The argument bag with no filter options present. -/
def emptyFilterArgs : FilterArgs := {}

/-- Embeds `has_ability` from `filter_pokemon_multi_criteria.py`: the row's
(parsed) ability list intersects the requested list, case-insensitively. -/
def has_ability (pokemonAbilities targetAbilities : List String) : Bool :=
  pokemonAbilities.any fun ability =>
    targetAbilities.any fun ta => ta.toLower == ability.toLower

/-- The conjunction of per-row predicates accumulated into the boolean mask
of `filter_pokemon_multi_criteria` (lines 242–333).  Each present option
contributes exactly one conjunct; an absent option contributes `true`. -/
def matchesFilters (a : FilterArgs) (p : Pokemon) : Bool :=
  (match a.type1 with
    | none => true
    | some s => if s = "" then true else p.type1.toLower == s.toLower) &&
  (match a.type2 with
    | none => true
    | some s =>
      if s = "" then true else
        match p.type2 with
        | none => false
        | some t => t.toLower == s.toLower) &&
  (match a.min_hp with | none => true | some v => v ≤ p.hp) &&
  (match a.max_hp with | none => true | some v => p.hp ≤ v) &&
  (match a.min_attack with | none => true | some v => v ≤ p.attack) &&
  (match a.max_attack with | none => true | some v => p.attack ≤ v) &&
  (match a.min_defense with | none => true | some v => v ≤ p.defense) &&
  (match a.max_defense with | none => true | some v => p.defense ≤ v) &&
  (match a.min_sp_attack with | none => true | some v => v ≤ p.sp_attack) &&
  (match a.max_sp_attack with | none => true | some v => p.sp_attack ≤ v) &&
  (match a.min_sp_defense with | none => true | some v => v ≤ p.sp_defense) &&
  (match a.max_sp_defense with | none => true | some v => p.sp_defense ≤ v) &&
  (match a.min_speed with | none => true | some v => v ≤ p.speed) &&
  (match a.max_speed with | none => true | some v => p.speed ≤ v) &&
  (match a.min_base_total with | none => true | some v => v ≤ p.base_total) &&
  (match a.max_base_total with | none => true | some v => p.base_total ≤ v) &&
  (match a.min_weight_kg with | none => true | some v => v ≤ p.weight_kg) &&
  (match a.max_weight_kg with | none => true | some v => p.weight_kg ≤ v) &&
  (match a.min_height_m with | none => true | some v => v ≤ p.height_m) &&
  (match a.max_height_m with | none => true | some v => p.height_m ≤ v) &&
  (match a.generation with | none => true | some g => p.generation == g) &&
  (match a.is_legendary with
    | none => true
    | some b => p.is_legendary == (if b then 1 else 0)) &&
  (match a.min_capture_rate with | none => true | some v => v ≤ p.capture_rate) &&
  (if a.abilities.isEmpty then true else has_ability p.abilities a.abilities)

/-- The mask application `filtered_df = df[mask]` (line 336): the rows
satisfying every present filter, in table order. -/
def filterStage (a : FilterArgs) (rows : List Pokemon) : List Pokemon :=
  rows.filter (matchesFilters a)

/-- Value of a numeric column of the row, used as a sort key by
`sort_values`.  Column names not in this list never reach the numeric
comparison (the string columns are dispatched separately in `colLeB`). -/
def colQ (c : String) (p : Pokemon) : ℚ :=
  if c = "pokedex_number" then p.pokedex_number
  else if c = "hp" then p.hp
  else if c = "attack" then p.attack
  else if c = "defense" then p.defense
  else if c = "sp_attack" then p.sp_attack
  else if c = "sp_defense" then p.sp_defense
  else if c = "speed" then p.speed
  else if c = "base_total" then p.base_total
  else if c = "weight_kg" then p.weight_kg
  else if c = "height_m" then p.height_m
  else if c = "generation" then p.generation
  else if c = "is_legendary" then p.is_legendary
  else if c = "capture_rate" then p.capture_rate
  else if c = "base_happiness" then p.base_happiness
  else 0

/-- Column comparison used to embed `sort_values(by=c)`: lexicographic for
the string columns, numeric otherwise. -/
def colLeB (c : String) (x y : Pokemon) : Bool :=
  if c = "name" then x.name < y.name || x.name == y.name
  else if c = "type1" then x.type1 < y.type1 || x.type1 == y.type1
  else colQ c x ≤ colQ c y

/-- Embeds `filtered_df.sort_values(by=c, ascending=asc)`.  An insertion sort
is used; the pandas default quicksort leaves the relative order of equal keys
unspecified, and no theorem below about sorted output depends on it. -/
def sortRows (c : String) (asc : Bool) (rows : List Pokemon) : List Pokemon :=
  if asc then rows.insertionSort fun x y => colLeB c x y = true
  else rows.insertionSort fun x y => colLeB c y x = true

/-- The full `filter_pokemon_multi_criteria` tool: mask, emptiness check
(`none` stands for the "No Pokemon found" message), sort only when the
requested column exists, truncate to the limit. -/
def filter_pokemon_multi_criteria (a : FilterArgs) (t : Table) :
    Option (List Pokemon) :=
  let filtered := filterStage a t.rows
  if filtered.isEmpty then none
  else
    let sb := a.sort_by.getD "base_total"
    let asc := a.ascending.getD false
    let sorted := if sb ∈ t.cols then sortRows sb asc filtered else filtered
    some (sorted.take (a.limit.getD 20))

/-- Embeds `get_sorted_df_cached`: the table sorted descending by the stat.
The cache itself is pure memoization of this value and is not modelled. -/
def get_sorted_df_cached (t : Table) (stat : String) : List Pokemon :=
  t.rows.insertionSort fun x y => colQ stat y ≤ colQ stat x

/-- The `calculate_stat_percentile` tool: find the row case-insensitively,
check the stat column exists, then rank = 1 + first position of the row's
exact name in the descending order, percentile = (total − rank)/total·100
(exact rational arithmetic; the code rounds only in the output string). -/
def calculate_stat_percentile (t : Table) (pokemon_name stat : String) :
    Option (ℕ × ℚ) :=
  match t.rows.find? (fun r => r.name.toLower == pokemon_name.toLower) with
  | none => none
  | some pr =>
    if stat ∈ t.cols then
      let sorted := get_sorted_df_cached t stat
      let rank := sorted.findIdx (fun r => r.name == pr.name) + 1
      let n := t.rows.length
      some (rank, ((n : ℚ) - rank) / n * 100)
    else none

/-- The 18 type names, exactly the `ALL_TYPES` constant of
`get_resistances_and_weaknesses.py`. -/
def ALL_TYPES : List String :=
  ["bug", "dark", "dragon", "electric", "fairy", "fighting", "fire", "flying",
   "ghost", "grass", "ground", "ice", "normal", "poison", "psychic", "rock",
   "steel", "water"]

/-- The six buckets built by `categorize_matchups`. -/
structure MatchupCategories where
  immunities : List String := []
  ultra_resistances : List String := []
  resistances : List String := []
  neutral : List String := []
  weaknesses : List String := []
  ultra_weaknesses : List String := []
  deriving DecidableEq, Inhabited

/-- One loop iteration of `categorize_matchups`: look the `against_<t>`
column up in the row (skip when absent) and run the `if`/`elif` chain on the
multiplier; a multiplier matching no branch leaves the buckets unchanged. -/
def catStep (row : Pokemon) (acc : MatchupCategories) (t : String) :
    MatchupCategories :=
  match row.against.lookup ("against_" ++ t) with
  | none => acc
  | some m =>
    if m = 0 then { acc with immunities := acc.immunities ++ [t] }
    else if m = 1/4 then
      { acc with ultra_resistances := acc.ultra_resistances ++ [t] }
    else if m = 1/2 then { acc with resistances := acc.resistances ++ [t] }
    else if m = 1 then { acc with neutral := acc.neutral ++ [t] }
    else if m = 2 then { acc with weaknesses := acc.weaknesses ++ [t] }
    else if 4 ≤ m then
      { acc with ultra_weaknesses := acc.ultra_weaknesses ++ [t] }
    else acc

/-- Embeds `categorize_matchups` of `get_resistances_and_weaknesses.py`: the
loop over `ALL_TYPES` starting from six empty buckets. -/
def categorize_matchups (row : Pokemon) : MatchupCategories :=
  ALL_TYPES.foldl (catStep row) {}

/-- Total number of entries across the six buckets. -/
def totalSize (mc : MatchupCategories) : ℕ :=
  mc.immunities.length + mc.ultra_resistances.length + mc.resistances.length +
    mc.neutral.length + mc.weaknesses.length + mc.ultra_weaknesses.length

/-- Number of occurrences of a type name across the six buckets. -/
def bucketCount (mc : MatchupCategories) (t : String) : ℕ :=
  mc.immunities.count t + mc.ultra_resistances.count t +
    mc.resistances.count t + mc.neutral.count t + mc.weaknesses.count t +
    mc.ultra_weaknesses.count t

/-- The discrete multiplier set the specification allows:
{0, 0.25, 0.5, 1, 2} together with every value ≥ 4. -/
def validMult (m : ℚ) : Prop :=
  m = 0 ∨ m = 1/4 ∨ m = 1/2 ∨ m = 1 ∨ m = 2 ∨ 4 ≤ m

/-- The `against_<t>` cell is present and carries an in-set multiplier. -/
def multOK : Option ℚ → Prop
  | none => False
  | some m => validMult m

instance validMult.instDecidable (m : ℚ) : Decidable (validMult m) := by
  unfold validMult
  infer_instance

instance multOK.instDecidablePred : DecidablePred multOK
  | none => isFalse fun h => h
  | some m => inferInstanceAs (Decidable (validMult m))

/-- A background record all concrete test rows are built from. -/
def basePokemon : Pokemon where
  name := "Base"
  pokedex_number := 0
  type1 := "normal"
  type2 := none
  hp := 50
  attack := 50
  defense := 50
  sp_attack := 50
  sp_defense := 50
  speed := 50
  base_total := 300
  weight_kg := 10
  height_m := 1
  generation := 1
  is_legendary := 0
  capture_rate := 45
  base_happiness := 70
  abilities := ["Run Away"]
  against := []

/-- Column list of a loaded statistics table (the columns the embedded tools
touch; `utils/load_data.py` validates that the required ones are present). -/
def statsCols : List String :=
  ["name", "pokedex_number", "type1", "type2", "hp", "attack", "defense",
   "sp_attack", "sp_defense", "speed", "base_total", "weight_kg", "height_m",
   "generation", "is_legendary", "capture_rate", "base_happiness",
   "abilities", "against_fire"]

/-- Concrete row with the smaller base stat total. -/
def rowLowTotal : Pokemon :=
  { basePokemon with name := "Weedle", base_total := 195 }

/-- Concrete row with the larger base stat total. -/
def rowHighTotal : Pokemon :=
  { basePokemon with name := "Dragonite", base_total := 600 }

/-- Two-row table for exercising the multi-criteria filter tool. -/
def tblAB : Table where
  cols := statsCols
  rows := [rowLowTotal, rowHighTotal]

/-- Argument bag requesting a sort key that is not a column. -/
def argsBogusSort : FilterArgs := { sort_by := some "bogus" }

/-- Row whose `against_bug` multiplier 3 lies outside the documented set
{0, 0.25, 0.5, 1, 2, ≥4}; every other multiplier is 1. -/
def badRow : Pokemon :=
  { basePokemon with
    against := ALL_TYPES.map fun t =>
      ("against_" ++ t, if t = "bug" then 3 else 1) }

/-- Row with all 18 multipliers inside the documented set. -/
def goodRow : Pokemon :=
  { basePokemon with
    against := ALL_TYPES.map fun t =>
      ("against_" ++ t,
        if t = "fire" then 0 else if t = "water" then 1/4
        else if t = "grass" then 1/2 else if t = "ice" then 2
        else if t = "rock" then 4 else 1) }

/-- Concrete row holding the strictly highest attack of its table. -/
def rowPika : Pokemon := { basePokemon with name := "Pika", attack := 55 }

/-- Concrete row with a lower attack. -/
def rowSlow : Pokemon := { basePokemon with name := "Slowest", attack := 30 }

/-- Two-row table for exercising the percentile tool. -/
def tblPct : Table where
  cols := statsCols
  rows := [rowPika, rowSlow]

/-- Direct cell access `row[f"against_{t}"]` as used by
`find_pokemon_resistant_to_types.py` after its column check; the tool only
reads columns it has validated to exist, so the fallback value is never
reached there. -/
def rowAgainst (r : Pokemon) (c : String) : ℚ :=
  (r.against.lookup c).getD 0

/-- The resistance score of a row: mean of its multipliers over the
requested (lowercased) types — `sum(multipliers) / len(multipliers)`. -/
def resistScore (typesLower : List String) (r : Pokemon) : ℚ :=
  ((typesLower.map fun ty => rowAgainst r ("against_" ++ ty)).sum) /
    (typesLower.length : ℚ)

/-- Embeds the `find_pokemon_resistant_to_types` tool: empty-request check,
column check, sequential filtering (multiplier ≤ threshold for every
requested type), mean score, ascending sort, truncation.  `none` stands for
each of the tool's error messages. -/
def find_pokemon_resistant_to_types (t : Table) (resist_types : List String)
    (max_multiplier : ℚ) (limit : ℕ) : Option (List (Pokemon × ℚ)) :=
  if resist_types.isEmpty then none
  else
    let typesLower := resist_types.map String.toLower
    if typesLower.any fun ty => !(t.cols.contains ("against_" ++ ty)) then
      none
    else
      let filtered := typesLower.foldl
        (fun acc ty =>
          acc.filter fun r => rowAgainst r ("against_" ++ ty) ≤ max_multiplier)
        t.rows
      if filtered.isEmpty then none
      else
        let scored := filtered.map fun r => (r, resistScore typesLower r)
        some ((scored.insertionSort fun a b => a.2 ≤ b.2).take limit)

/-- The set the reverse search should return: rows whose multiplier is ≤ the
threshold for every requested type (conjunction over the type list), in
table order. -/
def resistFilterList (t : Table) (typesLower : List String) (maxm : ℚ) :
    List Pokemon :=
  t.rows.filter fun r =>
    typesLower.all fun ty => rowAgainst r ("against_" ++ ty) ≤ maxm

/-- Concrete row with `against_fire = 0.25`. -/
def recFireQuarter : Pokemon :=
  { basePokemon with name := "Quarto", against := [("against_fire", 1/4)] }

/-- Concrete row with `against_fire = 0.5`: it also passes the threshold
0.5, although it is not the 0.25 row. -/
def recFireHalf : Pokemon :=
  { basePokemon with name := "Halfa", against := [("against_fire", 1/2)] }

/-- Concrete row with neutral `against_fire = 1`. -/
def recFireNeutral : Pokemon :=
  { basePokemon with name := "Plaino", against := [("against_fire", 1)] }

/-- Table where only one record has `against_fire = 0.25` but a second one
still passes the 0.5 threshold. -/
def tblFire : Table where
  cols := statsCols
  rows := [recFireQuarter, recFireHalf]

/-- Table where only one record has `against_fire = 0.25` and every other
record exceeds the 0.5 threshold. -/
def tblFireW : Table where
  cols := statsCols
  rows := [recFireQuarter, recFireNeutral]

/-- The legendary filter of `calculate_bst_distribution`: keep all rows, or
only the rows with `is_legendary == 0`. -/
def bstFilter (rows : List Pokemon) (include_legendaries : Bool) :
    List Pokemon :=
  if include_legendaries then rows else rows.filter fun r => r.is_legendary == 0

/-- Number of edges produced by `range(0, max_bst + bin_size, bin_size)`:
the count of multiples of `bin_size` below `max_bst + bin_size`. -/
def bstNumEdges (maxB bs : ℕ) : ℕ := (maxB + bs + bs - 1) / bs

/-- Number of intervals `pd.cut` builds from those edges (one less than the
number of edges). -/
def bstNumBins (maxB bs : ℕ) : ℕ := bstNumEdges maxB bs - 1

/-- Membership of a total in the i-th `pd.cut` interval: intervals are
right-closed `(bs·i, bs·(i+1)]`, and `include_lowest=True` closes the first
interval on the left at 0. -/
def inBin (bs i : ℕ) (x : ℤ) : Bool :=
  (decide ((bs : ℤ) * i < x) || (i == 0 && x == 0)) &&
    decide (x ≤ (bs : ℤ) * (i + 1))

/-- Rounding half to even at integer precision, the rule `numpy.round`
applies (exact-rational model of the float rounding the code performs). -/
def roundHalfEven (x : ℚ) : ℤ :=
  if x - ⌊x⌋ < 1/2 then ⌊x⌋
  else if 1/2 < x - ⌊x⌋ then ⌊x⌋ + 1
  else if Even ⌊x⌋ then ⌊x⌋ else ⌊x⌋ + 1

/-- The `.round(1)` applied to each percentage. -/
def roundTenth (x : ℚ) : ℚ := (roundHalfEven (x * 10) : ℚ) / 10

/-- Embeds the histogram part of `calculate_bst_distribution`: legendary
filter, emptiness check, `pd.cut` over `range(0, max + bin_size, bin_size)`,
per-bin counts (`observed=False`, so every interval appears, empty ones with
count 0) and percentages over the filtered population, rounded to one
decimal.  The mean/median scalars the tool also prints are independent of
the claim and not modelled. -/
def calculate_bst_distribution (rows : List Pokemon) (bin_size : ℕ)
    (include_legendaries : Bool) : Option (List (ℕ × ℚ)) :=
  let filtered := bstFilter rows include_legendaries
  if filtered.isEmpty then none
  else
    let maxB := ((filtered.map Pokemon.base_total).foldr max 0).toNat
    let nb := bstNumBins maxB bin_size
    let total := filtered.length
    let counts := (List.range nb).map fun i =>
      filtered.countP fun r => inBin bin_size i r.base_total
    some (counts.map fun c => (c, roundTenth ((c : ℚ) / (total : ℚ) * 100)))

/-- Number of bins the distribution tool builds for the given input. -/
def bstBinCountOf (rows : List Pokemon) (inc : Bool) (bs : ℕ) : ℕ :=
  bstNumBins (((bstFilter rows inc).map Pokemon.base_total).foldr max 0).toNat
    bs

/-- Concrete rows with totals 320, 450 and 610. -/
def rowBst1 : Pokemon := { basePokemon with name := "Low", base_total := 320 }

/-- Concrete row for the middle bin. -/
def rowBst2 : Pokemon := { basePokemon with name := "Mid", base_total := 450 }

/-- Concrete row for the top bin. -/
def rowBst3 : Pokemon := { basePokemon with name := "Top", base_total := 610 }

/-- Three-row list for exercising the distribution tool. -/
def bstRows : List Pokemon := [rowBst1, rowBst2, rowBst3]

/-- The six-entry stat vector `df[stats_cols]` of a row, in the column
order `hp, attack, defense, sp_attack, sp_defense, speed` used by
`find_similar_pokemon.py`. -/
def statQ (r : Pokemon) : Fin 6 → ℚ :=
  ![(r.hp : ℚ), (r.attack : ℚ), (r.defense : ℚ), (r.sp_attack : ℚ),
    (r.sp_defense : ℚ), (r.speed : ℚ)]

/-- `reference_mask.idxmax()`: index of the first case-insensitive name
match. -/
def refIdx (t : Table) (q : String) : ℕ :=
  t.rows.findIdx fun r => r.name.toLower == q.toLower

/-- `df.loc[reference_idx]`: the reference row (only read after the lookup
has succeeded, so the fallback is never reached there). -/
def refRow (t : Table) (q : String) : Pokemon :=
  t.rows.getD (refIdx t q) default

/-- Per-column mean over the full table, as `StandardScaler.fit` computes
it. -/
def statMean (t : Table) (j : Fin 6) : ℚ :=
  ((t.rows.map fun r => statQ r j).sum) / (t.rows.length : ℚ)

/-- Per-column population variance (`ddof = 0`), as `StandardScaler.fit`
computes it. -/
def statVar (t : Table) (j : Fin 6) : ℚ :=
  ((t.rows.map fun r => (statQ r j - statMean t j) ^ 2).sum) /
    (t.rows.length : ℚ)

/-- `StandardScaler.scale_`: the square root of the variance. -/
noncomputable def statScale (t : Table) (j : Fin 6) : ℝ :=
  Real.sqrt (statVar t j)

/-- sklearn replaces a zero scale by 1 (`_handle_zeros_in_scale`), so a
constant column standardizes to 0 rather than dividing by 0. -/
noncomputable def statScaleAdj (t : Table) (j : Fin 6) : ℝ :=
  if statScale t j = 0 then 1 else statScale t j

/-- The z-scored value of a row in column `j` (`scaler.transform`). -/
noncomputable def zval (t : Table) (r : Pokemon) (j : Fin 6) : ℝ :=
  (((statQ r j : ℚ) : ℝ) - ((statMean t j : ℚ) : ℝ)) / statScaleAdj t j

/-- Euclidean distance in standardized 6-space between the reference row
and a row (`scipy.cdist(..., metric="euclidean")`). -/
noncomputable def simDist (t : Table) (q : String) (r : Pokemon) : ℝ :=
  Real.sqrt (∑ j : Fin 6, (zval t (refRow t q) j - zval t r j) ^ 2)

/-- `distances.max() if len(distances) > 0 else 1.0`.  The fold with seed 0
equals the maximum because every distance is a square root, hence ≥ 0. -/
noncomputable def maxDist (t : Table) (q : String) : ℝ :=
  if (t.rows.map (simDist t q)).isEmpty then 1
  else (t.rows.map (simDist t q)).foldr max 0

/-- `similarity = 1 - distance / max_distance` when the maximum is
positive, else `1 - distance` (the code then divides by nothing; all
distances are 0 in that branch). -/
noncomputable def similarity (t : Table) (q : String) (r : Pokemon) : ℝ :=
  if 0 < maxDist t q then 1 - simDist t q r / maxDist t q
  else 1 - simDist t q r

open scoped Classical in
/-- Embeds the `find_similar_pokemon` tool: reference lookup, vectorized
similarity scores, exclusion of every row matching the reference name
together with the `min_similarity` cut, sort by similarity descending,
truncation, and the final emptiness check.  `none` stands for the tool's
error messages. -/
noncomputable def find_similar_pokemon (t : Table) (q : String) (limit : ℕ)
    (min_similarity : ℚ) : Option (List (Pokemon × ℝ)) :=
  if t.rows.any (fun r => r.name.toLower == q.toLower) then
    let pairs := t.rows.map fun r => (r, similarity t q r)
    let filtered := pairs.filter fun x =>
      !(x.1.name.toLower == q.toLower) && ((min_similarity : ℝ) ≤ x.2)
    let chosen := (filtered.insertionSort fun a b => b.2 ≤ a.2).take limit
    if chosen.isEmpty then none else some chosen
  else none

/-- Concrete reference row for the similarity engine. -/
def simRowA : Pokemon := { basePokemon with name := "Alpha" }

/-- Concrete row whose hp differs from the reference's. -/
def simRowB : Pokemon := { basePokemon with name := "Beta", hp := 80 }

/-- Two-row table for exercising the similarity engine. -/
def simTbl : Table where
  cols := statsCols
  rows := [simRowA, simRowB]

/-- Claim C1: in the multi-criteria filter, an empty filter configuration
(no filter options present) makes the boolean mask true on every record, so
the mask application returns the full table unchanged, in its original
order.  (Sorting and limiting are separate later stages of the tool.) -/
theorem empty_config_matches_all_and_is_identity :
    (∀ p : Pokemon, matchesFilters emptyFilterArgs p = true) ∧
      ∀ rows : List Pokemon, filterStage emptyFilterArgs rows = rows := by
  have hall : ∀ p : Pokemon, matchesFilters emptyFilterArgs p = true := fun p => rfl
  refine ⟨hall, fun rows => ?_⟩
  simpa [filterStage] using List.filter_eq_self.mpr fun p _ => hall p

/-- Claim C3 counterexample: with `sort_by = "bogus"` (not a column) on a
two-row table, the tool returns the rows in unsorted (filter) order, while
sorting by the default field `base_total` descending would have reversed
them — the code skips sorting instead of falling back to the default sort
field. -/
theorem unknown_sortby_counterexample :
    argsBogusSort.sort_by = some "bogus" ∧
      filter_pokemon_multi_criteria argsBogusSort tblAB =
        some [rowLowTotal, rowHighTotal] ∧
      sortRows "base_total" false [rowLowTotal, rowHighTotal] =
        [rowHighTotal, rowLowTotal] ∧
      ([rowLowTotal, rowHighTotal] : List Pokemon) ≠
        [rowHighTotal, rowLowTotal] :=
  ⟨rfl, by with_unfolding_all rfl, by with_unfolding_all rfl,
    by with_unfolding_all decide⟩

/-- Claim C3 (amended): when the requested `sort_by` name is not a column of
the table, the unknown name is ignored and no sorting is applied — the tool
returns the filtered rows in their original order, truncated to the limit. -/
theorem unknown_sortby_is_skipped (a : FilterArgs) (t : Table) (s : String)
    (hs : a.sort_by = some s) (hcol : s ∉ t.cols)
    (hne : filterStage a t.rows ≠ []) :
    filter_pokemon_multi_criteria a t =
      some ((filterStage a t.rows).take (a.limit.getD 20)) := by
  have hemp : (filterStage a t.rows).isEmpty = false := by
    simp [List.isEmpty_iff, hne]
  simp [filter_pokemon_multi_criteria, hemp, hs, hcol]

/-- Claim C3 witness: the amended theorem applied to the concrete two-row
table and the `sort_by = "bogus"` argument bag. -/
theorem unknown_sortby_is_skipped_witness :
    argsBogusSort.sort_by = some "bogus" ∧ "bogus" ∉ tblAB.cols ∧
      filterStage argsBogusSort tblAB.rows ≠ [] ∧
      filter_pokemon_multi_criteria argsBogusSort tblAB =
        some ((filterStage argsBogusSort tblAB.rows).take
          (argsBogusSort.limit.getD 20)) :=
  ⟨rfl, by decide, by with_unfolding_all decide,
    unknown_sortby_is_skipped argsBogusSort tblAB "bogus" rfl (by decide)
      (by with_unfolding_all decide)⟩

/-- One `categorize_matchups` loop step on an in-set multiplier grows the
total bucket size by exactly one. -/
theorem totalSize_catStep (row : Pokemon) (acc : MatchupCategories)
    (t : String) (h : multOK (List.lookup ("against_" ++ t) row.against)) :
    totalSize (catStep row acc t) = totalSize acc + 1 := by
  unfold catStep
  cases hl : List.lookup ("against_" ++ t) row.against with
  | none => rw [hl] at h; exact h.elim
  | some m =>
    rw [hl] at h
    dsimp only
    rcases h with h' | h' | h' | h' | h' | h'
    · rw [if_pos h']
      simp [totalSize, List.length_append]; omega
    · have n0 : ¬(m = 0) := by rw [h']; norm_num
      rw [if_neg n0, if_pos h']
      simp [totalSize, List.length_append]; omega
    · have n0 : ¬(m = 0) := by rw [h']; norm_num
      have n14 : ¬(m = 1/4) := by rw [h']; norm_num
      rw [if_neg n0, if_neg n14, if_pos h']
      simp [totalSize, List.length_append]; omega
    · have n0 : ¬(m = 0) := by rw [h']; norm_num
      have n14 : ¬(m = 1/4) := by rw [h']; norm_num
      have n12 : ¬(m = 1/2) := by rw [h']; norm_num
      rw [if_neg n0, if_neg n14, if_neg n12, if_pos h']
      simp [totalSize, List.length_append]; omega
    · have n0 : ¬(m = 0) := by rw [h']; norm_num
      have n14 : ¬(m = 1/4) := by rw [h']; norm_num
      have n12 : ¬(m = 1/2) := by rw [h']; norm_num
      have n1 : ¬(m = 1) := by rw [h']; norm_num
      rw [if_neg n0, if_neg n14, if_neg n12, if_neg n1, if_pos h']
      simp [totalSize, List.length_append]; omega
    · have n0 : ¬(m = 0) := by rintro rfl; norm_num at h'
      have n14 : ¬(m = 1/4) := by rintro rfl; norm_num at h'
      have n12 : ¬(m = 1/2) := by rintro rfl; norm_num at h'
      have n1 : ¬(m = 1) := by rintro rfl; norm_num at h'
      have n2 : ¬(m = 2) := by rintro rfl; norm_num at h'
      rw [if_neg n0, if_neg n14, if_neg n12, if_neg n1, if_neg n2, if_pos h']
      simp [totalSize, List.length_append]; omega

/-- Looping `catStep` over a list of types, all present with in-set
multipliers, grows the total bucket size by the length of the list. -/
theorem totalSize_foldl (row : Pokemon) :
    ∀ (ts : List String) (acc : MatchupCategories),
      (∀ t ∈ ts, multOK (List.lookup ("against_" ++ t) row.against)) →
      totalSize (ts.foldl (catStep row) acc) = totalSize acc + ts.length := by
  intro ts
  induction ts with
  | nil => intro acc _; simp
  | cons t ts ih =>
    intro acc h
    have ht := h t (List.mem_cons_self t ts)
    have htl : ∀ u ∈ ts, multOK (List.lookup ("against_" ++ u) row.against) :=
      fun u hu => h u (List.mem_cons_of_mem t hu)
    simp only [List.foldl_cons, List.length_cons]
    rw [ih (catStep row acc t) htl, totalSize_catStep row acc t ht]
    omega

/-- One `categorize_matchups` loop step on an in-set multiplier adds one
occurrence of the looped type name to the buckets and no occurrence of any
other name. -/
theorem bucketCount_catStep (row : Pokemon) (acc : MatchupCategories)
    (t s : String)
    (h : multOK (List.lookup ("against_" ++ t) row.against)) :
    bucketCount (catStep row acc t) s =
      bucketCount acc s + (if t = s then 1 else 0) := by
  unfold catStep
  cases hl : List.lookup ("against_" ++ t) row.against with
  | none => rw [hl] at h; exact h.elim
  | some m =>
    rw [hl] at h
    dsimp only
    rcases h with h' | h' | h' | h' | h' | h'
    · rw [if_pos h']
      by_cases hts : t = s <;>
        simp [bucketCount, List.count_append, List.count_singleton', hts] <;>
          omega
    · have n0 : ¬(m = 0) := by rw [h']; norm_num
      rw [if_neg n0, if_pos h']
      by_cases hts : t = s <;>
        simp [bucketCount, List.count_append, List.count_singleton', hts] <;>
          omega
    · have n0 : ¬(m = 0) := by rw [h']; norm_num
      have n14 : ¬(m = 1/4) := by rw [h']; norm_num
      rw [if_neg n0, if_neg n14, if_pos h']
      by_cases hts : t = s <;>
        simp [bucketCount, List.count_append, List.count_singleton', hts] <;>
          omega
    · have n0 : ¬(m = 0) := by rw [h']; norm_num
      have n14 : ¬(m = 1/4) := by rw [h']; norm_num
      have n12 : ¬(m = 1/2) := by rw [h']; norm_num
      rw [if_neg n0, if_neg n14, if_neg n12, if_pos h']
      by_cases hts : t = s <;>
        simp [bucketCount, List.count_append, List.count_singleton', hts] <;>
          omega
    · have n0 : ¬(m = 0) := by rw [h']; norm_num
      have n14 : ¬(m = 1/4) := by rw [h']; norm_num
      have n12 : ¬(m = 1/2) := by rw [h']; norm_num
      have n1 : ¬(m = 1) := by rw [h']; norm_num
      rw [if_neg n0, if_neg n14, if_neg n12, if_neg n1, if_pos h']
      by_cases hts : t = s <;>
        simp [bucketCount, List.count_append, List.count_singleton', hts] <;>
          omega
    · have n0 : ¬(m = 0) := by rintro rfl; norm_num at h'
      have n14 : ¬(m = 1/4) := by rintro rfl; norm_num at h'
      have n12 : ¬(m = 1/2) := by rintro rfl; norm_num at h'
      have n1 : ¬(m = 1) := by rintro rfl; norm_num at h'
      have n2 : ¬(m = 2) := by rintro rfl; norm_num at h'
      rw [if_neg n0, if_neg n14, if_neg n12, if_neg n1, if_neg n2, if_pos h']
      by_cases hts : t = s <;>
        simp [bucketCount, List.count_append, List.count_singleton', hts] <;>
          omega

/-- Looping `catStep` over a list of types, all present with in-set
multipliers, adds to the buckets exactly as many occurrences of a name as
the list contains. -/
theorem bucketCount_foldl (row : Pokemon) (s : String) :
    ∀ (ts : List String) (acc : MatchupCategories),
      (∀ t ∈ ts, multOK (List.lookup ("against_" ++ t) row.against)) →
      bucketCount (ts.foldl (catStep row) acc) s =
        bucketCount acc s + ts.count s := by
  intro ts
  induction ts with
  | nil => intro acc _; simp
  | cons t ts ih =>
    intro acc h
    have ht := h t (List.mem_cons_self t ts)
    have htl : ∀ u ∈ ts, multOK (List.lookup ("against_" ++ u) row.against) :=
      fun u hu => h u (List.mem_cons_of_mem t hu)
    simp only [List.foldl_cons]
    rw [ih (catStep row acc t) htl, bucketCount_catStep row acc t s ht,
      List.count_cons]
    by_cases hts : t = s
    · simp [hts]; omega
    · simp [hts, Ne.symm hts]

/-- Claim C4 counterexample: on a row whose `against_bug` multiplier is 3
(outside {0, 0.25, 0.5, 1, 2, ≥4}) the categorization silently drops the
type: the six buckets hold 17 entries instead of 18, `bug` appears in no
bucket, and no error of any kind is produced (the function returns plain
buckets). -/
theorem categorize_silently_drops_out_of_set :
    List.lookup ("against_" ++ "bug") badRow.against = some 3 ∧
      ¬ validMult 3 ∧
      totalSize (categorize_matchups badRow) = 17 ∧
      bucketCount (categorize_matchups badRow) "bug" = 0 :=
  ⟨by with_unfolding_all rfl, by with_unfolding_all decide,
    by with_unfolding_all rfl, by with_unfolding_all rfl⟩

/-- Claim C4 (amended): when every one of the 18 `against_*` cells is
present and its multiplier lies in {0, 0.25, 0.5, 1, 2} ∪ [4, ∞), the
categorization puts each of the 18 types in exactly one bucket and the
bucket sizes sum to 18; a multiplier outside this set makes the type vanish
from all buckets silently (see the counterexample) — no data-integrity
error is reported. -/
theorem categorize_partitions_valid_rows (row : Pokemon)
    (h : ∀ t ∈ ALL_TYPES, multOK (List.lookup ("against_" ++ t) row.against)) :
    totalSize (categorize_matchups row) = 18 ∧
      ∀ t ∈ ALL_TYPES, bucketCount (categorize_matchups row) t = 1 := by
  constructor
  · rw [categorize_matchups, totalSize_foldl row ALL_TYPES {} h]
    decide
  · intro t ht
    rw [categorize_matchups, bucketCount_foldl row t ALL_TYPES {} h]
    have hnd : ALL_TYPES.Nodup := by decide
    rw [show bucketCount {} t = 0 from rfl,
      List.count_eq_one_of_mem hnd ht]

/-- Claim C4 witness: the amended theorem applied to a concrete row whose 18
multipliers all lie in the documented set. -/
theorem categorize_partitions_valid_rows_witness :
    (∀ t ∈ ALL_TYPES,
        multOK (List.lookup ("against_" ++ t) goodRow.against)) ∧
      totalSize (categorize_matchups goodRow) = 18 ∧
        ∀ t ∈ ALL_TYPES, bucketCount (categorize_matchups goodRow) t = 1 :=
  ⟨by with_unfolding_all decide,
    categorize_partitions_valid_rows goodRow (by with_unfolding_all decide)⟩

/-- Claim C9: the multi-criteria filter is idempotent — applying the compiled
conjunction of predicates to the rows it has already selected selects them
all again. -/
theorem filterStage_idempotent (a : FilterArgs) (rows : List Pokemon) :
    filterStage a (filterStage a rows) = filterStage a rows := by
  simp [filterStage, List.filter_filter]

/-- A descending insertion sort on a rational key puts an element whose key
strictly dominates every other element at the head. -/
theorem insertionSort_desc_head {α : Type} [DecidableEq α] (key : α → ℚ)
    (l : List α) (m : α) (hm : m ∈ l)
    (hmax : ∀ x ∈ l, x ≠ m → key x < key m) :
    ∃ rest, l.insertionSort (fun x y => key y ≤ key x) = m :: rest := by
  haveI : IsTotal α fun x y => key y ≤ key x := ⟨fun a b => le_total _ _⟩
  haveI : IsTrans α fun x y => key y ≤ key x :=
    ⟨fun _ _ _ hab hbc => le_trans hbc hab⟩
  have hperm := List.perm_insertionSort (fun x y => key y ≤ key x) l
  cases hs : l.insertionSort (fun x y => key y ≤ key x) with
  | nil =>
    exfalso
    have hmem : m ∈ l.insertionSort fun x y => key y ≤ key x :=
      hperm.mem_iff.mpr hm
    rw [hs] at hmem
    exact (List.not_mem_nil m) hmem
  | cons x rest =>
    have hx : x ∈ l := by
      refine hperm.mem_iff.mp ?_
      rw [hs]
      exact List.mem_cons_self x rest
    by_cases hxm : x = m
    · exact ⟨rest, by rw [hxm]⟩
    · exfalso
      have hxlt : key x < key m := hmax x hx hxm
      have hmem : m ∈ x :: rest := by
        have h2 : m ∈ l.insertionSort fun x y => key y ≤ key x :=
          hperm.mem_iff.mpr hm
        rwa [hs] at h2
      have hmrest : m ∈ rest := by
        rcases List.mem_cons.mp hmem with he | hr
        · exact absurd he.symm hxm
        · exact hr
      have hsorted := List.sorted_insertionSort (fun x y => key y ≤ key x) l
      rw [hs] at hsorted
      have hle : key m ≤ key x := (List.sorted_cons.mp hsorted).1 m hmrest
      exact (not_le.mpr hxlt) hle

/-- Claim C5: the ranking tool returns rank = the record's 1-based position
in the descending sort of the stat, and percentile = (total − rank)/total·100
computed exactly (no intermediate rounding: the embedding's `ℚ` formula is
the code's float expression, rounded only at presentation).  Instantiated at
the strict maximum: a record found by name whose stat strictly dominates
every other record gets rank 1 and percentile (n−1)/n·100. -/
theorem percentile_of_strict_max (t : Table) (qname stat : String)
    (pr : Pokemon)
    (hfind : t.rows.find? (fun r => r.name.toLower == qname.toLower) = some pr)
    (hstat : stat ∈ t.cols)
    (hmax : ∀ r ∈ t.rows, r ≠ pr → colQ stat r < colQ stat pr) :
    calculate_stat_percentile t qname stat =
      some (1, ((t.rows.length : ℚ) - 1) / t.rows.length * 100) := by
  have hpr : pr ∈ t.rows := List.mem_of_find?_eq_some hfind
  obtain ⟨rest, hsort⟩ := insertionSort_desc_head (colQ stat) t.rows pr hpr hmax
  have hgs : get_sorted_df_cached t stat = pr :: rest := hsort
  simp only [calculate_stat_percentile, hfind, hstat, if_true, hgs,
    List.findIdx_cons, beq_self_eq_true, cond_true]
  norm_num

/-- Claim C5 witness: the theorem applied to a two-row table where `Pika`
(found case-insensitively) holds the strictly highest attack. -/
theorem percentile_of_strict_max_witness :
    tblPct.rows.find? (fun r => r.name.toLower == "pika".toLower) =
        some rowPika ∧
      "attack" ∈ tblPct.cols ∧
      (∀ r ∈ tblPct.rows, r ≠ rowPika →
        colQ "attack" r < colQ "attack" rowPika) ∧
      calculate_stat_percentile tblPct "pika" "attack" =
        some (1, ((tblPct.rows.length : ℚ) - 1) / tblPct.rows.length * 100) :=
  ⟨by with_unfolding_all rfl, by decide, by with_unfolding_all decide,
    percentile_of_strict_max tblPct "pika" "attack" rowPika
      (by with_unfolding_all rfl) (by decide) (by with_unfolding_all decide)⟩

/-- Sequentially filtering by each element of a list is the same as one
filter by the conjunction over the list. -/
theorem foldl_filter_eq_filter_all {α β : Type} (f : β → α → Bool) :
    ∀ (ts : List β) (l : List α),
      ts.foldl (fun acc ty => acc.filter (f ty)) l =
        l.filter fun x => ts.all fun ty => f ty x := by
  intro ts
  induction ts with
  | nil => intro l; simp
  | cons t ts ih =>
    intro l
    simp only [List.foldl_cons, List.all_cons]
    rw [ih (l.filter (f t)), List.filter_filter]
    congr 1
    funext x
    exact Bool.and_comm _ _

/-- An insertion sort on a rational key produces a list sorted by that
key. -/
theorem sorted_insertionSort_key {α : Type} (key : α → ℚ) (l : List α) :
    List.Sorted (fun a b => key a ≤ key b)
      (l.insertionSort fun a b => key a ≤ key b) := by
  haveI : IsTotal α fun a b => key a ≤ key b := ⟨fun a b => le_total _ _⟩
  haveI : IsTrans α fun a b => key a ≤ key b :=
    ⟨fun _ _ _ hab hbc => le_trans hab hbc⟩
  exact List.sorted_insertionSort _ l

/-- Every element of a list is bounded by the max-fold of the list. -/
theorem le_foldr_max {α : Type} [LinearOrder α] (z : α) (l : List α) :
    ∀ x ∈ l, x ≤ l.foldr max z := by
  induction l with
  | nil => intro x hx; exact absurd hx (List.not_mem_nil x)
  | cons y t ih =>
    intro x hx
    rcases List.mem_cons.mp hx with rfl | hx2
    · exact le_max_left _ _
    · exact le_trans (ih x hx2) (le_max_right _ _)

/-- The seed is bounded by the max-fold. -/
theorem init_le_foldr_max {α : Type} [LinearOrder α] (z : α) (l : List α) :
    z ≤ l.foldr max z := by
  induction l with
  | nil => exact le_refl z
  | cons y t ih => exact le_trans ih (le_max_right _ _)

/-- The max-fold is the seed or an element of the list. -/
theorem foldr_max_mem {α : Type} [LinearOrder α] (z : α) (l : List α) :
    l.foldr max z = z ∨ l.foldr max z ∈ l := by
  induction l with
  | nil => exact Or.inl rfl
  | cons y t ih =>
    simp only [List.foldr_cons]
    rcases max_choice y (t.foldr max z) with h | h
    · right; rw [h]; exact List.mem_cons_self y t
    · rw [h]
      rcases ih with h2 | h2
      · exact Or.inl h2
      · exact Or.inr (List.mem_cons_of_mem y h2)

/-- The edge count of `range(0, max + bin, bin)` minus one is the ceiling of
max over the bin width. -/
theorem bstNumBins_eq (maxN bs : ℕ) (hbs : 0 < bs) :
    bstNumBins maxN bs = (maxN + bs - 1) / bs := by
  unfold bstNumBins bstNumEdges
  have h : maxN + bs + bs - 1 = (maxN + bs - 1) + bs := by omega
  rw [h, Nat.add_div_right _ hbs, Nat.add_sub_cancel]

/-- The bins cover values up to `bs · numBins`, which is at least the
maximum total. -/
theorem le_mul_bstNumBins (maxN bs : ℕ) (hbs : 0 < bs) :
    maxN ≤ bs * bstNumBins maxN bs := by
  rw [bstNumBins_eq maxN bs hbs]
  have hdm := Nat.div_add_mod (maxN + bs - 1) bs
  have hmod : (maxN + bs - 1) % bs < bs := Nat.mod_lt _ hbs
  obtain ⟨A, hA⟩ : ∃ A, A = bs * ((maxN + bs - 1) / bs) := ⟨_, rfl⟩
  obtain ⟨B, hB⟩ : ∃ B, B = (maxN + bs - 1) % bs := ⟨_, rfl⟩
  rw [← hA, ← hB] at hdm
  rw [← hB] at hmod
  rw [← hA]
  omega

/-- For a positive value, membership in bin `i` is the two-sided interval
condition (the `include_lowest` extension of the first bin only matters at
0). -/
theorem inBin_iff (bs i : ℕ) (x : ℤ) (hx : 1 ≤ x) :
    inBin bs i x = true ↔ ((bs : ℤ) * i < x ∧ x ≤ (bs : ℤ) * (i + 1)) := by
  have hx0 : ¬(x = 0) := by omega
  simp [inBin, hx0]

/-- A positive value not exceeding the covered range lies in exactly one
bin. -/
theorem bin_index_unique (bs k : ℕ) (hbs : 0 < bs) (x : ℤ)
    (hx1 : 1 ≤ x) (hxk : x ≤ (bs : ℤ) * k) :
    ∃ i0, i0 < k ∧ ∀ j, (inBin bs j x = true ↔ j = i0) := by
  have hxn : ((x - 1).toNat : ℤ) = x - 1 := Int.toNat_of_nonneg (by omega)
  refine ⟨(x - 1).toNat / bs, ?_, ?_⟩
  · have hcast : x ≤ ((bs * k : ℕ) : ℤ) := by push_cast; exact hxk
    have h1 : (x - 1).toNat < bs * k := by omega
    refine (Nat.div_lt_iff_lt_mul hbs).mpr ?_
    rw [Nat.mul_comm k bs]
    exact h1
  · intro j
    rw [inBin_iff bs j x hx1]
    constructor
    · rintro ⟨hlo, hhi⟩
      have hlo2 : bs * j ≤ (x - 1).toNat := by
        have hc : ((bs * j : ℕ) : ℤ) < x := by push_cast; exact hlo
        omega
      have hhi2 : (x - 1).toNat < bs * (j + 1) := by
        have hc : x ≤ ((bs * (j + 1) : ℕ) : ℤ) := by push_cast; exact hhi
        omega
      have hlo3 : j * bs ≤ (x - 1).toNat := by rw [Nat.mul_comm]; exact hlo2
      have hhi3 : (x - 1).toNat < (j + 1) * bs := by
        rw [Nat.mul_comm]; exact hhi2
      exact (Nat.div_eq_of_lt_le hlo3 hhi3).symm
    · rintro rfl
      have hdm := Nat.div_add_mod (x - 1).toNat bs
      have hmod : (x - 1).toNat % bs < bs := Nat.mod_lt _ hbs
      obtain ⟨A, hA⟩ : ∃ A, A = bs * ((x - 1).toNat / bs) := ⟨_, rfl⟩
      obtain ⟨B, hB⟩ : ∃ B, B = (x - 1).toNat % bs := ⟨_, rfl⟩
      rw [← hA, ← hB] at hdm
      rw [← hB] at hmod
      have hle : bs * ((x - 1).toNat / bs) ≤ (x - 1).toNat := by omega
      have hlt : (x - 1).toNat < bs * ((x - 1).toNat / bs) + bs := by omega
      constructor
      · have hc : ((bs * ((x - 1).toNat / bs) : ℕ) : ℤ) ≤ ((x - 1).toNat : ℤ) :=
          by exact_mod_cast hle
        push_cast at hc
        push_cast
        linarith [hc, hxn]
      · have hc : ((x - 1).toNat : ℤ) <
            ((bs * ((x - 1).toNat / bs) + bs : ℕ) : ℤ) := by exact_mod_cast hlt
        push_cast at hc
        push_cast
        linarith [hc, hxn]

/-- Counting over an index range as a `Finset` sum of indicators. -/
theorem countP_range_eq_sum (q : ℕ → Bool) :
    ∀ k : ℕ, (List.range k).countP q =
      ∑ i in Finset.range k, if q i = true then 1 else 0 := by
  intro k
  induction k with
  | zero => simp
  | succ n ih =>
    rw [List.range_succ, List.countP_append, Finset.sum_range_succ, ih]
    simp [List.countP_cons]

/-- A list-of-naturals sum over a range of indices as a `Finset` sum. -/
theorem list_range_map_sum (f : ℕ → ℕ) :
    ∀ k : ℕ, ((List.range k).map f).sum = ∑ i in Finset.range k, f i := by
  intro k
  induction k with
  | zero => simp
  | succ n ih =>
    rw [List.range_succ, List.map_append, List.sum_append,
      Finset.sum_range_succ, ih]
    simp

/-- A predicate family true at exactly one index below `k` has count one
over `range k`. -/
theorem countP_range_eq_one (k i0 : ℕ) (q : ℕ → Bool) (hi0 : i0 < k)
    (hq : ∀ j, q j = true ↔ j = i0) :
    (List.range k).countP q = 1 := by
  rw [countP_range_eq_sum]
  have hcong : ∀ j ∈ Finset.range k,
      (if q j = true then 1 else 0) = if j = i0 then 1 else 0 := by
    intro j _
    by_cases hj : q j = true
    · rw [if_pos hj, if_pos ((hq j).mp hj)]
    · rw [if_neg hj, if_neg fun he => hj ((hq j).mpr he)]
  rw [Finset.sum_congr rfl hcong]
  simp [Finset.sum_ite_eq', Finset.mem_range, hi0]

/-- When every element falls in exactly one of `k` classes, the per-class
counts sum to the length of the list. -/
theorem sum_countP_of_unique {α : Type} (p : ℕ → α → Bool) (k : ℕ) :
    ∀ l : List α,
      (∀ x ∈ l, (List.range k).countP (fun i => p i x) = 1) →
      ((List.range k).map fun i => l.countP (p i)).sum = l.length := by
  intro l
  induction l with
  | nil => intro _; simp
  | cons x t ih =>
    intro h
    have hx := h x (List.mem_cons_self x t)
    have ht := fun y hy => h y (List.mem_cons_of_mem x hy)
    rw [list_range_map_sum]
    simp only [List.countP_cons, List.length_cons]
    rw [Finset.sum_add_distrib]
    have e1 : ∑ i in Finset.range k, t.countP (p i) = t.length := by
      rw [← list_range_map_sum]
      exact ih ht
    have e2 : (∑ i in Finset.range k, if p i x = true then 1 else 0) = 1 := by
      rw [← countP_range_eq_sum]
      exact hx
    rw [e1, e2]

/-- Rounding half to even moves a rational by at most one half. -/
theorem abs_roundHalfEven_sub (y : ℚ) :
    |(roundHalfEven y : ℚ) - y| ≤ 1/2 := by
  unfold roundHalfEven
  have hf1 : (⌊y⌋ : ℚ) ≤ y := Int.floor_le y
  have hf2 : y < ⌊y⌋ + 1 := Int.lt_floor_add_one y
  split_ifs with h1 h2 h3 <;>
  · rw [abs_le]
    push_cast
    constructor <;> linarith

/-- Rounding to one decimal moves a rational by at most one twentieth. -/
theorem abs_roundTenth_sub (x : ℚ) : |roundTenth x - x| ≤ 1/20 := by
  unfold roundTenth
  have h := abs_roundHalfEven_sub (x * 10)
  have he : (roundHalfEven (x * 10) : ℚ) / 10 - x =
      ((roundHalfEven (x * 10) : ℚ) - x * 10) / 10 := by ring
  rw [he, abs_div]
  have h10 : |(10 : ℚ)| = 10 := by norm_num
  rw [h10]
  linarith

/-- Triangle inequality for sums of two maps over the same list. -/
theorem abs_sum_sub_le {α : Type} (f g : α → ℚ) (ε : ℚ) :
    ∀ l : List α, (∀ c ∈ l, |f c - g c| ≤ ε) →
      |(l.map f).sum - (l.map g).sum| ≤ l.length * ε := by
  intro l
  induction l with
  | nil => intro _; simp
  | cons x t ih =>
    intro h
    have hx := h x (List.mem_cons_self x t)
    have ht := ih fun y hy => h y (List.mem_cons_of_mem x hy)
    simp only [List.map_cons, List.sum_cons, List.length_cons]
    have he : f x + (t.map f).sum - (g x + (t.map g).sum) =
        (f x - g x) + ((t.map f).sum - (t.map g).sum) := by ring
    rw [he]
    have htri := abs_add (f x - g x) ((t.map f).sum - (t.map g).sum)
    have hcast : ((t.length + 1 : ℕ) : ℚ) = (t.length : ℚ) + 1 := by push_cast; ring
    rw [hcast]
    nlinarith [htri, hx, ht, abs_nonneg (f x - g x)]

/-- Factoring the constant `/n·100` out of a sum. -/
theorem sum_map_div_mul (l : List ℕ) (n : ℚ) :
    (l.map fun c : ℕ => (c : ℚ) / n * 100).sum =
      ((l.map (Nat.cast : ℕ → ℚ)).sum) / n * 100 := by
  induction l with
  | nil => simp
  | cons x t ih =>
    simp only [List.map_cons, List.sum_cons, ih]
    ring

/-- A natural list sum casts to the sum of the casts. -/
theorem natCast_list_sum (l : List ℕ) :
    ((l.sum : ℕ) : ℚ) = (l.map (Nat.cast : ℕ → ℚ)).sum := by
  induction l with
  | nil => simp
  | cons x t ih =>
    simp only [List.sum_cons, List.map_cons, Nat.cast_add, ih]

/-- Rounded percentages with denominator `n` of counts summing to `n` sum
to 100 within one twentieth per entry. -/
theorem pct_sum_close (cs : List ℕ) (n k : ℕ) (hn : cs.sum = n)
    (hk : cs.length = k) (hn0 : 0 < n) :
    |(cs.map fun c : ℕ => roundTenth ((c : ℚ) / (n : ℚ) * 100)).sum - 100| ≤
      (k : ℚ) * (1/20) := by
  have hnq : (0 : ℚ) < (n : ℚ) := by exact_mod_cast hn0
  have htri := abs_sum_sub_le
    (fun c : ℕ => roundTenth ((c : ℚ) / (n : ℚ) * 100))
    (fun c : ℕ => (c : ℚ) / (n : ℚ) * 100) (1/20) cs
    (fun c _ => abs_roundTenth_sub _)
  have hexact : (cs.map fun c : ℕ => (c : ℚ) / (n : ℚ) * 100).sum = 100 := by
    rw [sum_map_div_mul, ← natCast_list_sum, hn, div_self (ne_of_gt hnq),
      one_mul]
  rw [hexact, hk] at htri
  exact htri

/-- Claim C7 counterexample: with `resist_types = [fire]` and threshold 0.5
on a table where only one record has `against_fire = 0.25`, the search does
not return exactly that record — a second record with `against_fire = 0.5`
also passes the ≤ 0.5 filter and is returned after it. -/
theorem reverse_search_scenario_counterexample :
    (tblFire.rows.countP fun r =>
        rowAgainst r "against_fire" == (1/4 : ℚ)) = 1 ∧
      find_pokemon_resistant_to_types tblFire ["fire"] (1/2) 20 =
        some [(recFireQuarter, 1/4), (recFireHalf, 1/2)] :=
  ⟨by with_unfolding_all decide, by with_unfolding_all rfl⟩

/-- Claim C7 (amended): the reverse resistance search returns exactly the
records whose `against_<type>` multiplier is ≤ the threshold for every
requested type (AND across types), ordered by the mean of those multipliers
ascending — provided the request is non-empty, every requested column
exists, some record passes, and the match count fits the limit.  In the
amended scenario, with `[fire]` and threshold 0.5 on a table where one
record has `against_fire = 0.25` and every other record exceeds the
threshold, exactly that record is returned with score 0.25 (see the
witness). -/
theorem reverse_search_filters_and_ranks (t : Table)
    (resist_types : List String) (maxm : ℚ) (limit : ℕ)
    (hne : resist_types ≠ [])
    (hcols : ∀ ty ∈ resist_types.map String.toLower,
      ("against_" ++ ty) ∈ t.cols)
    (hfne : resistFilterList t (resist_types.map String.toLower) maxm ≠ [])
    (hlim : (resistFilterList t (resist_types.map String.toLower) maxm).length
      ≤ limit) :
    ∃ out, find_pokemon_resistant_to_types t resist_types maxm limit =
        some out ∧
      List.Perm (out.map Prod.fst)
        (resistFilterList t (resist_types.map String.toLower) maxm) ∧
      List.Sorted (fun a b : Pokemon × ℚ => a.2 ≤ b.2) out ∧
      ∀ x ∈ out, x.2 = resistScore (resist_types.map String.toLower) x.1 := by
  have h1 : resist_types.isEmpty = false := by
    simp [List.isEmpty_iff, hne]
  have h2 : ((resist_types.map String.toLower).any fun ty =>
      !(t.cols.contains ("against_" ++ ty))) = false := by
    simp only [List.any_eq_false, Bool.not_eq_true']
    intro ty hty
    simpa using hcols ty hty
  have hfold : (resist_types.map String.toLower).foldl
      (fun acc ty =>
        acc.filter fun r => rowAgainst r ("against_" ++ ty) ≤ maxm) t.rows
      = resistFilterList t (resist_types.map String.toLower) maxm :=
    foldl_filter_eq_filter_all _ _ _
  have h3 : (resistFilterList t (resist_types.map String.toLower)
      maxm).isEmpty = false := by
    simp [List.isEmpty_iff, hfne]
  have hsortlen :
      (((resistFilterList t (resist_types.map String.toLower) maxm).map
          fun r => (r, resistScore (resist_types.map String.toLower) r))
        |>.insertionSort fun a b => a.2 ≤ b.2).length =
        (resistFilterList t (resist_types.map String.toLower) maxm).length := by
    rw [(List.perm_insertionSort _ _).length_eq, List.length_map]
  have htake :
      ((((resistFilterList t (resist_types.map String.toLower) maxm).map
          fun r => (r, resistScore (resist_types.map String.toLower) r))
        |>.insertionSort fun a b => a.2 ≤ b.2).take limit) =
      (((resistFilterList t (resist_types.map String.toLower) maxm).map
          fun r => (r, resistScore (resist_types.map String.toLower) r))
        |>.insertionSort fun a b => a.2 ≤ b.2) := by
    refine List.take_of_length_le ?_
    rw [hsortlen]
    exact hlim
  refine ⟨(((resistFilterList t (resist_types.map String.toLower) maxm).map
      fun r => (r, resistScore (resist_types.map String.toLower) r))
    |>.insertionSort fun a b => a.2 ≤ b.2), ?_, ?_, ?_, ?_⟩
  · simp only [find_pokemon_resistant_to_types, h1, h2, hfold, h3,
      Bool.false_eq_true, if_false]
    rw [htake]
  · have hperm := (List.perm_insertionSort
      (fun a b : Pokemon × ℚ => a.2 ≤ b.2)
      ((resistFilterList t (resist_types.map String.toLower) maxm).map
        fun r => (r, resistScore (resist_types.map String.toLower) r))).map
      Prod.fst
    simpa [List.map_map, Function.comp_def] using hperm
  · exact sorted_insertionSort_key (fun p : Pokemon × ℚ => p.2) _
  · intro x hx
    have hx2 : x ∈ (resistFilterList t (resist_types.map String.toLower)
        maxm).map fun r => (r, resistScore (resist_types.map String.toLower) r) :=
      (List.perm_insertionSort _ _).subset hx
    rcases List.mem_map.mp hx2 with ⟨r, _, heq⟩
    rw [← heq]

/-- Claim C7 witness: the amended theorem applied to the amended scenario —
`[fire]`, threshold 0.5, on a table where one record has
`against_fire = 0.25` and the only other record has `against_fire = 1`. -/
theorem reverse_search_filters_and_ranks_witness :
    (["fire"] : List String) ≠ [] ∧
      (∀ ty ∈ (["fire"] : List String).map String.toLower,
        ("against_" ++ ty) ∈ tblFireW.cols) ∧
      resistFilterList tblFireW ((["fire"] : List String).map String.toLower)
          (1/2) ≠ [] ∧
      (resistFilterList tblFireW ((["fire"] : List String).map String.toLower)
          (1/2)).length ≤ 20 ∧
      ∃ out, find_pokemon_resistant_to_types tblFireW ["fire"] (1/2) 20 =
          some out ∧
        List.Perm (out.map Prod.fst)
          (resistFilterList tblFireW
            ((["fire"] : List String).map String.toLower) (1/2)) ∧
        List.Sorted (fun a b : Pokemon × ℚ => a.2 ≤ b.2) out ∧
        ∀ x ∈ out, x.2 = resistScore
          ((["fire"] : List String).map String.toLower) x.1 :=
  ⟨by decide, by with_unfolding_all decide, by with_unfolding_all decide,
    by with_unfolding_all decide,
    reverse_search_filters_and_ranks tblFireW ["fire"] (1/2) 20 (by decide)
      (by with_unfolding_all decide) (by with_unfolding_all decide)
      (by with_unfolding_all decide)⟩

/-- Claim C8: the distribution-binning tool places each filtered record's
total in exactly one bin, the per-bin counts (over all conceptual bins,
empty ones included — `observed=False`) sum to the filtered population size,
and every bin's percentage uses the total filtered count as denominator, so
the percentages sum to 100 within the rounding tolerance of 1/20 per bin. -/
theorem bst_distribution_partition (rows : List Pokemon) (bs : ℕ) (inc : Bool)
    (hbs : 0 < bs)
    (hpos : ∀ r ∈ rows, 0 < r.base_total)
    (hne : bstFilter rows inc ≠ []) :
    ∃ dist, calculate_bst_distribution rows bs inc = some dist ∧
      (∀ r ∈ bstFilter rows inc, ∃! i,
        i < bstBinCountOf rows inc bs ∧ inBin bs i r.base_total = true) ∧
      (dist.map Prod.fst).sum = (bstFilter rows inc).length ∧
      |(dist.map Prod.snd).sum - 100| ≤
        (bstBinCountOf rows inc bs : ℚ) * (1/20) := by
  have hposF : ∀ r ∈ bstFilter rows inc, 0 < r.base_total := by
    intro r hr
    apply hpos
    cases inc with
    | false =>
      simp only [bstFilter, Bool.false_eq_true, if_false] at hr
      exact List.mem_of_mem_filter hr
    | true => simpa [bstFilter] using hr
  have hballe : ∀ r ∈ bstFilter rows inc,
      r.base_total ≤
        ((bstFilter rows inc).map Pokemon.base_total).foldr max 0 :=
    fun r hr => le_foldr_max 0 _ _ (List.mem_map_of_mem _ hr)
  have hmB0 : (0 : ℤ) ≤
      ((bstFilter rows inc).map Pokemon.base_total).foldr max 0 :=
    init_le_foldr_max 0 _
  have hmBN :
      (((((bstFilter rows inc).map Pokemon.base_total).foldr max 0).toNat :
        ℤ)) = ((bstFilter rows inc).map Pokemon.base_total).foldr max 0 :=
    Int.toNat_of_nonneg hmB0
  have hmax_le :
      ((((bstFilter rows inc).map Pokemon.base_total).foldr max 0).toNat) ≤
        bs * bstBinCountOf rows inc bs :=
    le_mul_bstNumBins _ _ hbs
  have hboundZ : ∀ r ∈ bstFilter rows inc,
      r.base_total ≤ (bs : ℤ) * (bstBinCountOf rows inc bs) := by
    intro r hr
    have h1 := hballe r hr
    have h3 :
        (((((bstFilter rows inc).map Pokemon.base_total).foldr max 0).toNat :
          ℤ)) ≤ ((bs * bstBinCountOf rows inc bs : ℕ) : ℤ) := by
      exact_mod_cast hmax_le
    rw [hmBN] at h3
    have h2 : ((bs * bstBinCountOf rows inc bs : ℕ) : ℤ) =
        (bs : ℤ) * (bstBinCountOf rows inc bs) := by push_cast; ring
    rw [h2] at h3
    linarith
  have huniq : ∀ r ∈ bstFilter rows inc,
      ∃ i0, i0 < bstBinCountOf rows inc bs ∧
        ∀ j, (inBin bs j r.base_total = true ↔ j = i0) := by
    intro r hr
    exact bin_index_unique bs _ hbs r.base_total
      (by have := hposF r hr; omega) (hboundZ r hr)
  have hcount1 : ∀ r ∈ bstFilter rows inc,
      (List.range (bstBinCountOf rows inc bs)).countP
        (fun i => inBin bs i r.base_total) = 1 := by
    intro r hr
    obtain ⟨i0, hi0, hq⟩ := huniq r hr
    exact countP_range_eq_one _ i0 _ hi0 hq
  have hFne : (bstFilter rows inc).isEmpty = false := by
    simp [List.isEmpty_iff, hne]
  have hsum : ((List.range (bstBinCountOf rows inc bs)).map fun i =>
      (bstFilter rows inc).countP fun r => inBin bs i r.base_total).sum =
      (bstFilter rows inc).length :=
    sum_countP_of_unique _ _ _ hcount1
  refine ⟨((List.range (bstBinCountOf rows inc bs)).map fun i =>
      (bstFilter rows inc).countP fun r => inBin bs i r.base_total).map
        fun c => (c, roundTenth
          ((c : ℚ) / ((bstFilter rows inc).length : ℚ) * 100)),
    ?_, ?_, ?_, ?_⟩
  · simp only [calculate_bst_distribution, hFne, Bool.false_eq_true,
      if_false]
    rfl
  · intro r hr
    obtain ⟨i0, hi0, hq⟩ := huniq r hr
    exact ⟨i0, ⟨hi0, (hq i0).mpr rfl⟩, fun j hj => (hq j).mp hj.2⟩
  · rw [List.map_map]
    have hco : (Prod.fst ∘ fun c : ℕ => (c, roundTenth
        ((c : ℚ) / ((bstFilter rows inc).length : ℚ) * 100))) = id := rfl
    rw [hco, List.map_id]
    exact hsum
  · rw [List.map_map]
    have hco : (Prod.snd ∘ fun c : ℕ => (c, roundTenth
        ((c : ℚ) / ((bstFilter rows inc).length : ℚ) * 100))) =
        fun c : ℕ => roundTenth
          ((c : ℚ) / ((bstFilter rows inc).length : ℚ) * 100) := rfl
    rw [hco]
    refine pct_sum_close _ _ _ hsum ?_ ?_
    · rw [List.length_map, List.length_range]
    · exact List.length_pos.mpr hne

/-- Claim C8 witness: the theorem applied to a three-row table with totals
320, 450, 610 and bin width 100, legendaries included. -/
theorem bst_distribution_partition_witness :
    0 < 100 ∧ (∀ r ∈ bstRows, 0 < r.base_total) ∧
      bstFilter bstRows true ≠ [] ∧
      ∃ dist, calculate_bst_distribution bstRows 100 true = some dist ∧
        (∀ r ∈ bstFilter bstRows true, ∃! i,
          i < bstBinCountOf bstRows true 100 ∧
            inBin 100 i r.base_total = true) ∧
        (dist.map Prod.fst).sum = (bstFilter bstRows true).length ∧
        |(dist.map Prod.snd).sum - 100| ≤
          (bstBinCountOf bstRows true 100 : ℚ) * (1/20) :=
  ⟨by decide, by decide, by with_unfolding_all decide,
    bst_distribution_partition bstRows 100 true (by decide) (by decide)
      (by with_unfolding_all decide)⟩

/-- Distances are square roots, hence nonnegative. -/
theorem simDist_nonneg (t : Table) (q : String) (r : Pokemon) :
    0 ≤ simDist t q r :=
  Real.sqrt_nonneg _

/-- Every row's distance is bounded by the per-call maximum distance. -/
theorem simDist_le_maxDist (t : Table) (q : String) (r : Pokemon)
    (hr : r ∈ t.rows) : simDist t q r ≤ maxDist t q := by
  have h0 : t.rows ≠ [] := List.ne_nil_of_mem hr
  have h1 : (t.rows.map (simDist t q)).isEmpty = false := by
    simp [List.isEmpty_iff, h0]
  unfold maxDist
  rw [h1]
  simp only [Bool.false_eq_true, if_false]
  exact le_foldr_max 0 _ _ (List.mem_map_of_mem _ hr)

/-- Each similarity score lies in the unit interval. -/
theorem similarity_mem_bounds (t : Table) (q : String) (r : Pokemon)
    (hr : r ∈ t.rows) : 0 ≤ similarity t q r ∧ similarity t q r ≤ 1 := by
  have hdm := simDist_le_maxDist t q r hr
  have hd0 := simDist_nonneg t q r
  unfold similarity
  split_ifs with hpos
  · have h1 : simDist t q r / maxDist t q ≤ 1 := (div_le_one hpos).mpr hdm
    have h2 : 0 ≤ simDist t q r / maxDist t q :=
      div_nonneg hd0 (le_of_lt hpos)
    constructor <;> linarith
  · have hmax : maxDist t q ≤ 0 := not_lt.mp hpos
    have hd : simDist t q r = 0 := le_antisymm (le_trans hdm hmax) hd0
    rw [hd]
    norm_num

/-- With a zero maximum distance every similarity equals one. -/
theorem similarity_eq_one_of_maxDist_zero (t : Table) (q : String)
    (h : maxDist t q = 0) : ∀ r ∈ t.rows, similarity t q r = 1 := by
  intro r hr
  have hdm := simDist_le_maxDist t q r hr
  have hd : simDist t q r = 0 :=
    le_antisymm (h ▸ hdm) (simDist_nonneg t q r)
  unfold similarity
  split_ifs with hpos
  · rw [h] at hpos
    exact absurd hpos (lt_irrefl 0)
  · rw [hd]
    norm_num

/-- Every entry of a successful similarity result is a table row carrying
its own similarity score, does not match the reference name, and passed the
threshold. -/
theorem find_similar_mem (t : Table) (q : String) (limit : ℕ) (ms : ℚ)
    (out : List (Pokemon × ℝ)) (x : Pokemon × ℝ)
    (hout : find_similar_pokemon t q limit ms = some out) (hx : x ∈ out) :
    x.1 ∈ t.rows ∧ x.2 = similarity t q x.1 ∧
      x.1.name.toLower ≠ q.toLower ∧ (ms : ℝ) ≤ x.2 := by
  simp only [find_similar_pokemon] at hout
  split at hout
  · split at hout
    · exact absurd hout (by simp)
    · have hchosen := Option.some.inj hout
      rw [← hchosen] at hx
      have hx1 := List.take_subset _ _ hx
      have hx2 := (List.perm_insertionSort _ _).subset hx1
      have hx3 := List.mem_filter.mp hx2
      have hand := hx3.2
      rw [Bool.and_eq_true] at hand
      obtain ⟨hA, hB⟩ := hand
      have hA2 : (x.1.name.toLower == q.toLower) = false := by
        rw [Bool.not_eq_true'] at hA
        exact hA
      have hA3 : x.1.name.toLower ≠ q.toLower := by
        simpa using hA2
      have hB2 : (ms : ℝ) ≤ x.2 := of_decide_eq_true hB
      rcases List.mem_map.mp hx3.1 with ⟨r, hr, heq⟩
      refine ⟨?_, ?_, hA3, hB2⟩
      · rw [← heq]
        exact hr
      · rw [← heq]
  · exact absurd hout (by simp)

/-- Claim C6: the similarity engine computes `1 − distance/max_distance`
with the per-call maximum distance (all scores are 1 when that maximum is
0); every similarity score lies in [0, 1], and no entry of the output
matches the reference name (the reference record itself is never
returned). -/
theorem similarity_bounds_and_reference_excluded (t : Table) (q : String)
    (limit : ℕ) (ms : ℚ) :
    (∀ r ∈ t.rows, 0 ≤ similarity t q r ∧ similarity t q r ≤ 1) ∧
      (maxDist t q = 0 → ∀ r ∈ t.rows, similarity t q r = 1) ∧
      ∀ out, find_similar_pokemon t q limit ms = some out →
        ∀ x ∈ out, x.1.name.toLower ≠ q.toLower ∧ 0 ≤ x.2 ∧ x.2 ≤ 1 := by
  refine ⟨fun r hr => similarity_mem_bounds t q r hr,
    similarity_eq_one_of_maxDist_zero t q, fun out hout x hx => ?_⟩
  obtain ⟨hmem, heq, hne2, _⟩ := find_similar_mem t q limit ms out x hout hx
  have hb := similarity_mem_bounds t q x.1 hmem
  rw [heq]
  exact ⟨hne2, hb.1, hb.2⟩

/-- Claim C6 witness: the theorem instantiated at a concrete two-row table
and query. -/
theorem similarity_bounds_and_reference_excluded_witness :
    (∀ r ∈ simTbl.rows, 0 ≤ similarity simTbl "alpha" r ∧
        similarity simTbl "alpha" r ≤ 1) ∧
      (maxDist simTbl "alpha" = 0 →
        ∀ r ∈ simTbl.rows, similarity simTbl "alpha" r = 1) ∧
      ∀ out, find_similar_pokemon simTbl "alpha" 5 (7/10) = some out →
        ∀ x ∈ out, x.1.name.toLower ≠ "alpha".toLower ∧ 0 ≤ x.2 ∧ x.2 ≤ 1 :=
  similarity_bounds_and_reference_excluded simTbl "alpha" 5 (7/10)

/-- The adjusted scale is positive (1 for constant columns, otherwise a
nonzero square root). -/
theorem statScaleAdj_pos (t : Table) (j : Fin 6) : 0 < statScaleAdj t j := by
  unfold statScaleAdj
  split_ifs with h
  · norm_num
  · exact lt_of_le_of_ne (Real.sqrt_nonneg _) (Ne.symm h)

/-- Standardization is injective in each column: raw values that differ
stay different after the z-score transform. -/
theorem zval_ne_of_statQ_ne (t : Table) (r s : Pokemon) (j : Fin 6)
    (h : statQ r j ≠ statQ s j) : zval t r j ≠ zval t s j := by
  unfold zval
  intro heq
  have hs : statScaleAdj t j ≠ 0 := ne_of_gt (statScaleAdj_pos t j)
  rw [div_eq_div_iff hs hs] at heq
  have h2 := mul_right_cancel₀ hs heq
  have h3 : ((statQ r j : ℚ) : ℝ) = ((statQ s j : ℚ) : ℝ) := by linarith
  exact h (by exact_mod_cast h3)

/-- If some row's raw stat vector differs from the reference's, the maximum
distance of the call is strictly positive. -/
theorem maxDist_pos (t : Table) (q : String)
    (hdiff : ∃ r ∈ t.rows, ∃ j : Fin 6, statQ r j ≠ statQ (refRow t q) j) :
    0 < maxDist t q := by
  obtain ⟨r, hr, j, hj⟩ := hdiff
  have hz : zval t r j ≠ zval t (refRow t q) j :=
    zval_ne_of_statQ_ne t r _ j hj
  have hterm : 0 < (zval t (refRow t q) j - zval t r j) ^ 2 :=
    pow_two_pos_of_ne_zero (sub_ne_zero.mpr (Ne.symm hz))
  have hsum : 0 < ∑ j2 : Fin 6,
      (zval t (refRow t q) j2 - zval t r j2) ^ 2 :=
    Finset.sum_pos' (fun i _ => sq_nonneg _) ⟨j, Finset.mem_univ j, hterm⟩
  have hd : 0 < simDist t q r := Real.sqrt_pos.mpr hsum
  exact lt_of_lt_of_le hd (simDist_le_maxDist t q r hr)

/-- A positive maximum distance is attained by some row. -/
theorem maxDist_attained (t : Table) (q : String) (hpos : 0 < maxDist t q)
    (hne : t.rows ≠ []) :
    ∃ r ∈ t.rows, simDist t q r = maxDist t q := by
  have hmape : (t.rows.map (simDist t q)).isEmpty = false := by
    simp [List.isEmpty_iff, hne]
  have hmd : maxDist t q = (t.rows.map (simDist t q)).foldr max 0 := by
    unfold maxDist
    rw [hmape]
    simp
  rcases foldr_max_mem 0 (t.rows.map (simDist t q)) with h0 | hmem
  · rw [hmd, h0] at hpos
    exact absurd hpos (lt_irrefl 0)
  · rw [hmd]
    rcases List.mem_map.mp hmem with ⟨r, hr, heq⟩
    exact ⟨r, hr, heq⟩

/-- A row attaining the maximum distance gets similarity exactly 0. -/
theorem similarity_zero_at_max (t : Table) (q : String) (r : Pokemon)
    (hpos : 0 < maxDist t q) (heq : simDist t q r = maxDist t q) :
    similarity t q r = 0 := by
  unfold similarity
  rw [if_pos hpos, heq, div_self (ne_of_gt hpos)]
  ring

/-- Claim C10: because scores are normalized by the per-call maximum
distance, whenever some row's raw stat vector differs from the reference's
(equivalently: the standardized vectors are not all equal), the maximum is
positive, every row attaining it — in particular the farthest row — has
similarity exactly 0, and for any positive `min_similarity` threshold no
output entry carries similarity 0, so the farthest record is always
excluded. -/
theorem farthest_record_excluded (t : Table) (q : String) (limit : ℕ)
    (ms : ℚ)
    (hdiff : ∃ r ∈ t.rows, ∃ j : Fin 6, statQ r j ≠ statQ (refRow t q) j)
    (hms : 0 < ms) :
    (∃ r ∈ t.rows, simDist t q r = maxDist t q ∧ similarity t q r = 0) ∧
      (∀ r ∈ t.rows, simDist t q r = maxDist t q →
        similarity t q r = 0) ∧
      ∀ out, find_similar_pokemon t q limit ms = some out →
        ∀ x ∈ out, x.2 ≠ 0 := by
  have hpos := maxDist_pos t q hdiff
  have hrne : t.rows ≠ [] := by
    obtain ⟨r, hr, _⟩ := hdiff
    exact List.ne_nil_of_mem hr
  refine ⟨?_, ?_, ?_⟩
  · obtain ⟨r, hr, heq⟩ := maxDist_attained t q hpos hrne
    exact ⟨r, hr, heq, similarity_zero_at_max t q r hpos heq⟩
  · intro r _ heq
    exact similarity_zero_at_max t q r hpos heq
  · intro out hout x hx
    obtain ⟨_, _, _, hge⟩ := find_similar_mem t q limit ms out x hout hx
    have hms2 : (0 : ℝ) < (ms : ℝ) := by exact_mod_cast hms
    intro h0
    rw [h0] at hge
    linarith

/-- Claim C10 witness: the theorem applied to a concrete two-row table
whose rows differ in hp, with the default threshold 0.7. -/
theorem farthest_record_excluded_witness :
    (∃ r ∈ simTbl.rows, ∃ j : Fin 6,
        statQ r j ≠ statQ (refRow simTbl "alpha") j) ∧
      (0 : ℚ) < 7/10 ∧
      ((∃ r ∈ simTbl.rows, simDist simTbl "alpha" r = maxDist simTbl "alpha"
          ∧ similarity simTbl "alpha" r = 0) ∧
        (∀ r ∈ simTbl.rows,
          simDist simTbl "alpha" r = maxDist simTbl "alpha" →
            similarity simTbl "alpha" r = 0) ∧
        ∀ out, find_similar_pokemon simTbl "alpha" 5 (7/10) = some out →
          ∀ x ∈ out, x.2 ≠ 0) :=
  ⟨by with_unfolding_all decide, by with_unfolding_all decide,
    farthest_record_excluded simTbl "alpha" 5 (7/10)
      (by with_unfolding_all decide) (by with_unfolding_all decide)⟩

end PokemonMCP
